import Mathlib

/-!
Shallow embedding of the subnet engine of the iprs repository
(src/src/interface/ipv4.rs, src/src/interface/ipv6.rs, src/src/interface/traits.rs,
src/src/error.rs).  Machine integers of width w (32 for IPv4, 128 for IPv6) are
modelled as naturals below 2 ^ w; bitwise complement within the word is the
function wnot below.  The ipnet dependency functions the engine calls
(netmask, hostmask, network, broadcast, new, subnets) are embedded from the
documented semantics of that crate.
-/

namespace Iprs

/-- Error variants from src/src/error.rs that the subnet engine can produce.
PrefixLen stands for the PrefixLenError of the ipnet crate wrapped by the
Error::PrefixLen variant. -/
inductive Error where
  | PrefixLen : Error
  | SplitSmallerThanPrefixLen : Nat → Nat → Error
  | SplitTooBig : Nat → Nat → Error
deriving DecidableEq, Repr

/-- A CIDR network value: an address and a prefix length, as held by the
Ipv4Net / Ipv6Net values of the ipnet crate.  The address is the
address-as-number of the spec and is not required to be masked to the
prefix. -/
structure Network where
  addr : Nat
  prefix_len : Nat
deriving DecidableEq, Repr

/-- Bitwise complement within a w-bit word: the Rust operator ! on uN applied
to x < 2 ^ w. -/
def wnot (w x : Nat) : Nat := 2 ^ w - 1 - x

/-- Netmask of a network, from the ipnet crate: the all-ones word shifted left
by w - prefix_len, which is 0 when prefix_len = 0 (checked_shl returning None)
and otherwise the word with the top prefix_len bits set. -/
def netmask (w : Nat) (n : Network) : Nat := wnot w (2 ^ (w - n.prefix_len) - 1)

/-- Hostmask of a network, from the ipnet crate: bitwise complement of the
netmask. -/
def hostmask (w : Nat) (n : Network) : Nat := wnot w (netmask w n)

/-- Network (first) address, from the ipnet crate: addr AND netmask. -/
def network (w : Nat) (n : Network) : Nat := n.addr &&& netmask w n

/-- Broadcast (last) address, from the ipnet crate: addr OR hostmask. -/
def broadcast (w : Nat) (n : Network) : Nat := n.addr ||| hostmask w n

/-- Constructor of the ipnet crate (Ipv4Net::new / Ipv6Net::new): fails with a
prefix-length error iff the prefix exceeds the bit width, and stores the
address unmasked otherwise. -/
def Network.new (w : Nat) (a p : Nat) : Except Error Network :=
  if p ≤ w then .ok ⟨a, p⟩ else .error .PrefixLen

/-- Subnets iterator of the ipnet crate (Ipv4Net::subnets / Ipv6Net::subnets):
succeeds iff prefix_len ≤ s ≤ w, and then yields the consecutive blocks of
prefix length s that cover the range network()..broadcast(), in increasing
address order.  The lazily-produced iterator is modelled as the list of the
networks it yields. -/
def subnets (w : Nat) (n : Network) (s : Nat) : Except Error (List Network) :=
  if n.prefix_len ≤ s ∧ s ≤ w then
    .ok ((List.range (2 ^ (s - n.prefix_len))).map
      fun i => ⟨network w n + i * 2 ^ (w - s), s⟩)
  else
    .error .PrefixLen

/-- Method split of impl Interface for Ipv4Net in src/src/interface/ipv4.rs:
iterates self.subnets(mask), mapping any subnets error to
SplitSmallerThanPrefixLen(mask, prefix_len).  The printed sequence is modelled
as the list of produced sub-networks. -/
def splitV4 (n : Network) (s : Nat) : Except Error (List Network) :=
  match subnets 32 n s with
  | .ok l => .ok l
  | .error _ => .error (.SplitSmallerThanPrefixLen s n.prefix_len)

/-- What the split method of impl Interface for Ipv6Net prints: either the
produced blocks or the oversized-splitmask message. -/
inductive SplitV6Output where
  | blocks : List Network → SplitV6Output
  | oversizedSplitmask : SplitV6Output
deriving DecidableEq, Repr

/-- Method split of impl Interface for Ipv6Net in src/src/interface/ipv6.rs:
never returns an error value; on a subnets failure it prints the
oversized-splitmask message and returns success. -/
def splitV6 (n : Network) (s : Nat) : SplitV6Output :=
  match subnets 128 n s with
  | .ok l => .blocks l
  | .error _ => .oversizedSplitmask

/-- Rust saturating_pow of base 2u32: saturates at the maximum u32 value. -/
def saturating_pow2_32 (e : Nat) : Nat := min (2 ^ e) (2 ^ 32 - 1)

/-- addresses_in_network from src/src/interface/ipv4.rs:
2u32.saturating_pow(32 - prefix_len). -/
def addresses_in_network (n : Network) : Nat := saturating_pow2_32 (32 - n.prefix_len)

/-- usable_range from src/src/interface/ipv4.rs, with the formatted string
modelled as the pair of endpoint addresses: None for prefix lengths above 30,
otherwise network saturating_add 1 and broadcast saturating_sub 1 (natural
subtraction already saturates at 0). -/
def usable_range (n : Network) : Option (Nat × Nat) :=
  if 30 < n.prefix_len then none
  else some (min (network 32 n + 1) (2 ^ 32 - 1), broadcast 32 n - 1)

/-- The attribute names the summarize method of impl Interface for Ipv6Net
prints, in order (src/src/interface/ipv6.rs): the IPv6 summary is the same
fixed attribute sequence for every network and prefix length, and it contains
no usable-range attribute (only the IPv4 interface computes a usable range). -/
def ipv6_summarize_attributes : List String :=
  ["Expanded Address", "Compressed Address", "Subnet Prefix (masked)",
   "Address ID (masked)", "Prefix address", "Prefix length", "Address type",
   "Network range"]

/-- random_split_generate_address from src/src/interface/ipv4.rs and the
identical (up to width) function in src/src/interface/ipv6.rs, generic in the
bit width w; r is the value drawn from the injected random source by
rng.random_range(0..MAX). -/
def random_split_generate_address (w : Nat) (ip : Network) (split : Nat) (r : Nat) :
    Except Error Network :=
  if split ≤ ip.prefix_len then
    .error (.SplitSmallerThanPrefixLen split ip.prefix_len)
  else if w < split then
    .error (.SplitTooBig w split)
  else
    let split_mask := wnot w ((1 <<< (w - split)) - 1)
    if ip.prefix_len = 0 then
      Network.new w (r &&& split_mask) split
    else
      let supernet_mask := (1 <<< (w - ip.prefix_len)) - 1
      let new_address := (ip.addr &&& wnot w supernet_mask) ||| (r &&& supernet_mask)
      Network.new w (new_address &&& split_mask) split

/-- generate_random_split from src/src/interface/traits.rs: the generic engine
threading the caller-supplied random generator.  The mutable generator of type
R is modelled as a state type sigma with a step function rng mapping a state to
the drawn value and the successor state; the call returns the result together
with the final generator state. -/
def generate_random_split {σ : Type} (w : Nat) (ip : Network) (split : Nat)
    (rng : σ → Nat × σ) (st : σ) : Except Error Network × σ :=
  if split ≤ ip.prefix_len then
    (.error (.SplitSmallerThanPrefixLen split ip.prefix_len), st)
  else if w < split then
    (.error (.SplitTooBig w split), st)
  else
    let d := rng st
    let split_mask := wnot w ((1 <<< (w - split)) - 1)
    if ip.prefix_len = 0 then
      (Network.new w (d.1 &&& split_mask) split, d.2)
    else
      let supernet_mask := (1 <<< (w - ip.prefix_len)) - 1
      let new_address := (ip.addr &&& wnot w supernet_mask) ||| (d.1 &&& supernet_mask)
      (Network.new w (new_address &&& split_mask) split, d.2)

/-- The set of values the injected random source can actually draw:
rand::random_range(0..MAX) samples the half-open range, so the maximum word
value itself is never produced. -/
def drawn_value (w r : Nat) : Prop := r < 2 ^ w - 1

/-- The shift amounts the random_split arithmetic evaluates once validation has
passed: w - split for the split mask and, when prefix_len is nonzero,
w - prefix_len for the supernet mask. -/
def random_split_shift_amounts (w : Nat) (ip : Network) (split : Nat) : List Nat :=
  if ip.prefix_len = 0 then [w - split] else [w - split, w - ip.prefix_len]

/-! Shared arithmetic facts about the masks the engine builds. -/

theorem two_pow_le_two_pow {k w : Nat} (h : k ≤ w) : 2 ^ k ≤ 2 ^ w :=
  Nat.pow_le_pow_right (by omega) h

theorem wnot_two_pow_sub_one {w k : Nat} (hk : k ≤ w) :
    wnot w (2 ^ k - 1) = 2 ^ w - 2 ^ k := by
  have h1 := Nat.two_pow_pos k
  have h2 := two_pow_le_two_pow hk
  unfold wnot
  omega

theorem netmask_eq (w : Nat) (n : Network) :
    netmask w n = 2 ^ w - 2 ^ (w - n.prefix_len) :=
  wnot_two_pow_sub_one (Nat.sub_le w n.prefix_len)

theorem hostmask_eq (w : Nat) (n : Network) :
    hostmask w n = 2 ^ (w - n.prefix_len) - 1 := by
  have h1 := Nat.two_pow_pos (w - n.prefix_len)
  have h2 := two_pow_le_two_pow (Nat.sub_le w n.prefix_len)
  rw [hostmask, netmask_eq]
  unfold wnot
  omega

theorem and_mul_two_pow_eq_zero {b k : Nat} (m : Nat) (hb : b < 2 ^ k) :
    b &&& 2 ^ k * m = 0 := by
  apply Nat.eq_of_testBit_eq
  intro i
  simp only [Nat.testBit_and, Nat.testBit_mul_pow_two, Nat.zero_testBit]
  rcases Nat.lt_or_ge i k with h | h
  · simp [Nat.not_le.mpr h]
  · have hb2 : b < 2 ^ i := Nat.lt_of_lt_of_le hb (two_pow_le_two_pow h)
    simp [Nat.testBit_lt_two_pow hb2]

theorem mul_two_pow_and (k a b : Nat) :
    2 ^ k * a &&& 2 ^ k * b = 2 ^ k * (a &&& b) := by
  apply Nat.eq_of_testBit_eq
  intro i
  simp only [Nat.testBit_and, Nat.testBit_mul_pow_two]
  rcases Nat.lt_or_ge i k with h | h
  · simp [Nat.not_le.mpr h]
  · simp [h, Nat.testBit_and]

theorem and_high_mask {x w k : Nat} (hx : x < 2 ^ w) (hk : k ≤ w) :
    x &&& (2 ^ w - 2 ^ k) = 2 ^ k * (x / 2 ^ k) := by
  have hkpos := Nat.two_pow_pos k
  have hpow : 2 ^ k * 2 ^ (w - k) = 2 ^ w := by
    rw [← pow_add]
    congr 1
    omega
  have hq : x / 2 ^ k < 2 ^ (w - k) := by
    rw [Nat.div_lt_iff_lt_mul hkpos]
    calc x < 2 ^ w := hx
    _ = 2 ^ (w - k) * 2 ^ k := by rw [Nat.mul_comm, hpow]
  have hmask : 2 ^ w - 2 ^ k = 2 ^ k * (2 ^ (w - k) - 1) := by
    have h2 : 2 ^ k * (2 ^ (w - k) - 1) + 2 ^ k = 2 ^ k * 2 ^ (w - k) := by
      rw [← Nat.mul_succ]
      congr 1
      have := Nat.two_pow_pos (w - k)
      omega
    omega
  conv_lhs => rw [← Nat.div_add_mod x (2 ^ k)]
  rw [hmask, Nat.mul_add_lt_is_or (Nat.mod_lt x hkpos) (x / 2 ^ k),
    Nat.and_distrib_right, mul_two_pow_and, and_mul_two_pow_eq_zero _ (Nat.mod_lt x hkpos),
    Nat.and_pow_two_sub_one_eq_mod, Nat.mod_eq_of_lt hq, Nat.or_zero]

theorem or_two_pow_sub_one {b k : Nat} (hb : b < 2 ^ k) :
    b ||| (2 ^ k - 1) = 2 ^ k - 1 := by
  apply Nat.eq_of_testBit_eq
  intro i
  simp only [Nat.testBit_or, Nat.testBit_two_pow_sub_one]
  rcases Nat.lt_or_ge i k with h | h
  · simp [h]
  · have hb2 : b < 2 ^ i := Nat.lt_of_lt_of_le hb (two_pow_le_two_pow h)
    simp [Nat.not_lt.mpr h, Nat.testBit_lt_two_pow hb2]

theorem network_eq {w : Nat} (n : Network) (hx : n.addr < 2 ^ w) :
    network w n = 2 ^ (w - n.prefix_len) * (n.addr / 2 ^ (w - n.prefix_len)) := by
  rw [network, netmask_eq]
  exact and_high_mask hx (Nat.sub_le w n.prefix_len)

theorem broadcast_eq {w : Nat} (n : Network) (hx : n.addr < 2 ^ w) :
    broadcast w n = network w n + (2 ^ (w - n.prefix_len) - 1) := by
  have hkpos := Nat.two_pow_pos (w - n.prefix_len)
  have hmod := Nat.mod_lt n.addr hkpos
  rw [broadcast, hostmask_eq, network_eq n hx]
  conv_lhs => rw [← Nat.div_add_mod n.addr (2 ^ (w - n.prefix_len))]
  rw [Nat.mul_add_lt_is_or hmod _, Nat.or_assoc, or_two_pow_sub_one hmod,
    ← Nat.mul_add_lt_is_or (by omega) _]

theorem subnets_ok {w : Nat} (n : Network) (s : Nat)
    (h1 : n.prefix_len ≤ s) (h2 : s ≤ w) :
    subnets w n s = .ok ((List.range (2 ^ (s - n.prefix_len))).map
      fun i => ⟨network w n + i * 2 ^ (w - s), s⟩) := by
  rw [subnets, if_pos ⟨h1, h2⟩]

theorem merge_then_mask {w p s addr r : Nat} (ha : addr < 2 ^ w) (h1 : p < s) (h2 : s ≤ w) :
    (addr &&& (2 ^ w - 2 ^ (w - p)) ||| r &&& (2 ^ (w - p) - 1)) &&& (2 ^ w - 2 ^ (w - s)) =
      2 ^ (w - p) * (addr / 2 ^ (w - p)) + 2 ^ (w - s) * (r % 2 ^ (w - p) / 2 ^ (w - s)) := by
  have hkpos := Nat.two_pow_pos (w - p)
  have htpos := Nat.two_pow_pos (w - s)
  have hrm := Nat.mod_lt r hkpos
  set q := addr / 2 ^ (w - p) with hqdef
  set rm := r % 2 ^ (w - p) with hrmdef
  have hq : q < 2 ^ p := by
    rw [hqdef, Nat.div_lt_iff_lt_mul hkpos]
    calc addr < 2 ^ w := ha
    _ = 2 ^ p * 2 ^ (w - p) := by rw [← pow_add]; congr 1; omega
  have hts : 2 ^ (w - s) * 2 ^ (s - p) = 2 ^ (w - p) := by
    rw [← pow_add]; congr 1; omega
  have hlt : 2 ^ (w - p) * q + rm < 2 ^ w := by
    have h5 : 2 ^ (w - p) * (q + 1) ≤ 2 ^ (w - p) * 2 ^ p :=
      Nat.mul_le_mul_left _ (by omega)
    have h6 : 2 ^ (w - p) * (q + 1) = 2 ^ (w - p) * q + 2 ^ (w - p) := by ring
    have h7 : 2 ^ (w - p) * 2 ^ p = 2 ^ w := by rw [← pow_add]; congr 1; omega
    omega
  rw [and_high_mask ha (Nat.sub_le w p), ← hqdef,
    Nat.and_pow_two_sub_one_eq_mod, ← hrmdef,
    ← Nat.mul_add_lt_is_or hrm q,
    and_high_mask hlt (Nat.sub_le w s)]
  have hsplit : 2 ^ (w - p) * q + rm = 2 ^ (w - s) * (2 ^ (s - p) * q) + rm := by
    rw [← Nat.mul_assoc, hts]
  rw [hsplit, Nat.mul_add_div htpos, Nat.mul_add, ← Nat.mul_assoc, hts]

theorem random_split_ok {w : Nat} (ip : Network) (s r : Nat)
    (ha : ip.addr < 2 ^ w) (hr : r < 2 ^ w) (h1 : ip.prefix_len < s) (h2 : s ≤ w) :
    random_split_generate_address w ip s r =
      .ok ⟨network w ip +
        2 ^ (w - s) * (r % 2 ^ (w - ip.prefix_len) / 2 ^ (w - s)), s⟩ := by
  simp only [random_split_generate_address, Network.new, Nat.one_shiftLeft,
    wnot_two_pow_sub_one (Nat.sub_le w s), wnot_two_pow_sub_one (Nat.sub_le w ip.prefix_len)]
  rw [if_neg (by omega : ¬ s ≤ ip.prefix_len), if_neg (by omega : ¬ w < s)]
  by_cases hp : ip.prefix_len = 0
  · rw [if_pos hp, if_pos h2, and_high_mask hr (Nat.sub_le w s)]
    have hnet : network w ip = 0 := by
      rw [network, netmask_eq, hp]
      simp
    rw [hnet, hp, Nat.sub_zero, Nat.mod_eq_of_lt hr, Nat.zero_add]
  · rw [if_neg hp, if_pos h2,
      merge_then_mask ha h1 h2, network_eq ip ha]

/-- The partition property claimed for split: exactly 2 ^ (s - prefix_len)
sub-networks of prefix length s, in strictly increasing address order with
pairwise disjoint address ranges, whose ranges together cover the supernet
range exactly. -/
def SplitSpec (w : Nat) (n : Network) (s : Nat) (l : List Network) : Prop :=
  l.length = 2 ^ (s - n.prefix_len) ∧
  (∀ m ∈ l, m.prefix_len = s) ∧
  l.Pairwise (fun a b => a.addr + (2 ^ (w - s) - 1) < b.addr) ∧
  ∀ x, (network w n ≤ x ∧ x ≤ broadcast w n) ↔
    ∃ m ∈ l, m.addr ≤ x ∧ x ≤ m.addr + (2 ^ (w - s) - 1)

theorem subnets_split_spec {w : Nat} (n : Network) (s : Nat)
    (hx : n.addr < 2 ^ w) (h1 : n.prefix_len ≤ s) (h2 : s ≤ w) :
    ∃ l, subnets w n s = .ok l ∧ SplitSpec w n s l := by
  refine ⟨_, subnets_ok n s h1 h2, ?_, ?_, ?_, ?_⟩
  · simp
  · intro m hm
    rcases List.mem_map.mp hm with ⟨i, _, rfl⟩
    rfl
  · refine List.pairwise_map.mpr ?_
    refine (List.pairwise_lt_range _).imp ?_
    intro i j hij
    simp only
    have hsz := Nat.two_pow_pos (w - s)
    have hmul : (i + 1) * 2 ^ (w - s) ≤ j * 2 ^ (w - s) :=
      Nat.mul_le_mul_right _ (by omega)
    have hd : (i + 1) * 2 ^ (w - s) = i * 2 ^ (w - s) + 2 ^ (w - s) := by ring
    omega
  · intro x
    have hsz := Nat.two_pow_pos (w - s)
    have hbig := Nat.two_pow_pos (w - n.prefix_len)
    have hNsz : 2 ^ (s - n.prefix_len) * 2 ^ (w - s) = 2 ^ (w - n.prefix_len) := by
      rw [← pow_add]; congr 1; omega
    rw [broadcast_eq n hx]
    constructor
    · rintro ⟨hlo, hhi⟩
      set d := x - network w n with hddef
      have hx0 : d < 2 ^ (w - n.prefix_len) := by omega
      have hi : d / 2 ^ (w - s) < 2 ^ (s - n.prefix_len) := by
        rw [Nat.div_lt_iff_lt_mul hsz]
        calc d < 2 ^ (w - n.prefix_len) := hx0
        _ = 2 ^ (s - n.prefix_len) * 2 ^ (w - s) := hNsz.symm
      refine ⟨⟨network w n + d / 2 ^ (w - s) * 2 ^ (w - s), s⟩,
        List.mem_map.mpr ⟨d / 2 ^ (w - s), List.mem_range.mpr hi, rfl⟩, ?_, ?_⟩ <;>
      · simp only
        have hdm := Nat.div_add_mod d (2 ^ (w - s))
        have hmod := Nat.mod_lt d hsz
        have hcomm : d / 2 ^ (w - s) * 2 ^ (w - s) = 2 ^ (w - s) * (d / 2 ^ (w - s)) :=
          Nat.mul_comm _ _
        omega
    · rintro ⟨m, hm, hlo, hhi⟩
      rcases List.mem_map.mp hm with ⟨i, hir, rfl⟩
      have hiN := List.mem_range.mp hir
      have hmul : (i + 1) * 2 ^ (w - s) ≤ 2 ^ (s - n.prefix_len) * 2 ^ (w - s) :=
        Nat.mul_le_mul_right _ (by omega)
      have hd : (i + 1) * 2 ^ (w - s) = i * 2 ^ (w - s) + 2 ^ (w - s) := by ring
      simp only at hlo hhi
      omega

/-! Claim theorems. -/

/-- C1: evaluation of the code at the failing input.  The injected source only
ever draws values r with drawn_value 32 r (rand::random_range over the
half-open range 0..u32::MAX), and for the supernet 0.0.0.0/0 split to /32 the
returned block is exactly r/32, so the all-ones block 255.255.255.255/32 is
returned for no drawn value, contradicting the claim that every sub-block is
reachable and produced by equally many drawn values. -/
theorem random_split_never_draws_top_block (r : Nat) (h : drawn_value 32 r) :
    random_split_generate_address 32 ⟨0, 0⟩ 32 r = .ok ⟨r, 32⟩ ∧
    random_split_generate_address 32 ⟨0, 0⟩ 32 r ≠ .ok ⟨2 ^ 32 - 1, 32⟩ := by
  have hr : r < 2 ^ 32 := by
    unfold drawn_value at h
    omega
  have h1 := random_split_ok (w := 32) ⟨0, 0⟩ 32 r (Nat.two_pow_pos 32) hr
    (by decide) (by decide)
  have hnet : network 32 (⟨0, 0⟩ : Network) = 0 := by
    rw [network]
    exact Nat.zero_and _
  rw [hnet] at h1
  simp only [Nat.sub_self, pow_zero, Nat.sub_zero, Nat.div_one, Nat.one_mul,
    Nat.zero_add, Nat.mod_eq_of_lt hr] at h1
  refine ⟨h1, ?_⟩
  simp only [h1, ne_eq, Except.ok.injEq, Network.mk.injEq, and_true]
  unfold drawn_value at h
  omega

/-- C1 witness. -/
theorem random_split_never_draws_top_block_witness :
    drawn_value 32 0 ∧
    (random_split_generate_address 32 ⟨0, 0⟩ 32 0 = .ok ⟨0, 32⟩ ∧
      random_split_generate_address 32 ⟨0, 0⟩ 32 0 ≠ .ok ⟨2 ^ 32 - 1, 32⟩) :=
  ⟨by unfold drawn_value; omega,
    random_split_never_draws_top_block 0 (by unfold drawn_value; omega)⟩

/-- C2: for every network (address not necessarily pre-masked), every valid
new prefix length and every random value, random_split returns a block that
is an element of the sequence split produces (via the shared subnets
computation), with the requested prefix length. -/
theorem random_split_mem_split {w : Nat} (ip : Network) (s r : Nat)
    (ha : ip.addr < 2 ^ w) (hr : r < 2 ^ w) (h1 : ip.prefix_len < s) (h2 : s ≤ w) :
    ∃ l m, subnets w ip s = .ok l ∧
      random_split_generate_address w ip s r = .ok m ∧ m ∈ l ∧ m.prefix_len = s := by
  refine ⟨_, _, subnets_ok ip s (by omega) h2, random_split_ok ip s r ha hr h1 h2, ?_, rfl⟩
  have hkpos := Nat.two_pow_pos (w - ip.prefix_len)
  have htpos := Nat.two_pow_pos (w - s)
  refine List.mem_map.mpr ⟨r % 2 ^ (w - ip.prefix_len) / 2 ^ (w - s),
    List.mem_range.mpr ?_, ?_⟩
  · rw [Nat.div_lt_iff_lt_mul htpos]
    calc r % 2 ^ (w - ip.prefix_len) < 2 ^ (w - ip.prefix_len) := Nat.mod_lt r hkpos
    _ = 2 ^ (s - ip.prefix_len) * 2 ^ (w - s) := by rw [← pow_add]; congr 1; omega
  · simp only [Network.mk.injEq, and_true]
    exact congrArg (fun z => network w ip + z) (Nat.mul_comm _ _)

/-- C2 witness. -/
theorem random_split_mem_split_witness :
    ∃ l m, subnets 32 ⟨3232235777, 24⟩ 26 = .ok l ∧
      random_split_generate_address 32 ⟨3232235777, 24⟩ 26 77 = .ok m ∧
      m ∈ l ∧ m.prefix_len = 26 :=
  random_split_mem_split ⟨3232235777, 24⟩ 26 77 (by decide) (by decide)
    (by decide) (by decide)

/-- C5: for every valid network and valid narrower prefix length, split
succeeds and produces exactly 2 ^ (s - prefix_len) sub-networks of prefix
length s, pairwise disjoint, in increasing address order, covering the
supernet range exactly — for the IPv4 split and for the blocks the IPv6
split prints. -/
theorem split_partitions_supernet (n : Network) (s : Nat) :
    (n.addr < 2 ^ 32 → n.prefix_len < s → s ≤ 32 →
      ∃ l, splitV4 n s = .ok l ∧ SplitSpec 32 n s l) ∧
    (n.addr < 2 ^ 128 → n.prefix_len < s → s ≤ 128 →
      ∃ l, splitV6 n s = .blocks l ∧ SplitSpec 128 n s l) := by
  constructor
  · intro hx h1 h2
    obtain ⟨l, hok, hspec⟩ := subnets_split_spec n s hx (by omega) h2
    exact ⟨l, by rw [splitV4, hok], hspec⟩
  · intro hx h1 h2
    obtain ⟨l, hok, hspec⟩ := subnets_split_spec n s hx (by omega) h2
    exact ⟨l, by rw [splitV6, hok], hspec⟩

/-- C5 witness. -/
theorem split_partitions_supernet_witness :
    ∃ l, splitV4 ⟨167837952, 24⟩ 26 = .ok l ∧ SplitSpec 32 ⟨167837952, 24⟩ 26 l :=
  (split_partitions_supernet ⟨167837952, 24⟩ 26).1 (by decide) (by decide) (by decide)

/-- C6: for every prefix length up to 32, addresses_in_network is
2 ^ (32 - prefix_len) whenever that fits in a u32 (prefix_len at least 1),
saturates to the u32 maximum at prefix length 0, and is always bounded by the
u32 maximum (no wrap, and saturating_pow cannot panic). -/
theorem addresses_in_network_eq (n : Network) (hp : n.prefix_len ≤ 32) :
    (1 ≤ n.prefix_len → addresses_in_network n = 2 ^ (32 - n.prefix_len)) ∧
    (n.prefix_len = 0 → addresses_in_network n = 2 ^ 32 - 1) ∧
    addresses_in_network n ≤ 2 ^ 32 - 1 := by
  unfold addresses_in_network saturating_pow2_32
  refine ⟨?_, ?_, ?_⟩
  · intro h
    have h1 : 32 - n.prefix_len ≤ 31 := by omega
    have h2 : 2 ^ (32 - n.prefix_len) ≤ 2 ^ 31 := two_pow_le_two_pow h1
    have h3 : (2 : Nat) ^ 31 ≤ 2 ^ 32 - 1 := by norm_num
    omega
  · intro h
    rw [h]
    norm_num
  · omega

/-- C6 witness. -/
theorem addresses_in_network_eq_witness :
    (1 ≤ (24 : Nat) → addresses_in_network ⟨0, 24⟩ = 2 ^ (32 - 24)) ∧
    ((24 : Nat) = 0 → addresses_in_network ⟨0, 24⟩ = 2 ^ 32 - 1) ∧
    addresses_in_network ⟨0, 24⟩ ≤ 2 ^ 32 - 1 :=
  addresses_in_network_eq ⟨0, 24⟩ (by decide)

/-- C7 counterexample: the claim asserts that for IPv6 networks usable_range
is present whenever the prefix length is at most 126, but the IPv6 interface
computes no usable range for any network: its summarize output — the same
fixed attribute sequence for every IPv6 network, in particular every one of
prefix length at most 126 — carries no usable-range attribute. -/
theorem ipv6_summarize_no_usable_range :
    ("Usable range" : String) ∉ ipv6_summarize_attributes := by decide

/-- C7 (amended): the IPv4 usable_range — the only usable range the program
computes — is the pair network+1 .. broadcast-1 exactly when the prefix
length is at most 30 (BITS - 2), and is absent for prefix lengths 31 and 32;
the IPv6 interface reports no usable range for any prefix length. -/
theorem usable_range_boundary (n : Network) (hx : n.addr < 2 ^ 32) (hp : n.prefix_len ≤ 32) :
    (usable_range n = some (network 32 n + 1, broadcast 32 n - 1) ↔ n.prefix_len ≤ 30) ∧
    ((n.prefix_len = 31 ∨ n.prefix_len = 32) → usable_range n = none) ∧
    ("Usable range" : String) ∉ ipv6_summarize_attributes := by
  have habsent : 30 < n.prefix_len → usable_range n = none := by
    intro h
    rw [usable_range, if_pos h]
  refine ⟨?_, ?_, by decide⟩
  · constructor
    · intro hsome
      by_contra hgt
      rw [habsent (by omega)] at hsome
      exact Option.noConfusion hsome
    · intro h30
      rw [usable_range, if_neg (by omega)]
      have hkpos := Nat.two_pow_pos (32 - n.prefix_len)
      have hk4 : 4 ≤ 2 ^ (32 - n.prefix_len) := by
        have : (2 : Nat) ^ 2 ≤ 2 ^ (32 - n.prefix_len) := two_pow_le_two_pow (by omega)
        omega
      have hq : n.addr / 2 ^ (32 - n.prefix_len) < 2 ^ n.prefix_len := by
        rw [Nat.div_lt_iff_lt_mul hkpos]
        calc n.addr < 2 ^ 32 := hx
        _ = 2 ^ n.prefix_len * 2 ^ (32 - n.prefix_len) := by
          rw [← pow_add]; congr 1; omega
      have hnet : network 32 n ≤ 2 ^ 32 - 2 ^ (32 - n.prefix_len) := by
        rw [network_eq n hx]
        have h5 : 2 ^ (32 - n.prefix_len) * (n.addr / 2 ^ (32 - n.prefix_len) + 1) ≤
            2 ^ (32 - n.prefix_len) * 2 ^ n.prefix_len :=
          Nat.mul_le_mul_left _ (by omega)
        have h6 : 2 ^ (32 - n.prefix_len) * (n.addr / 2 ^ (32 - n.prefix_len) + 1) =
            2 ^ (32 - n.prefix_len) * (n.addr / 2 ^ (32 - n.prefix_len)) +
              2 ^ (32 - n.prefix_len) := by ring
        have h7 : 2 ^ (32 - n.prefix_len) * 2 ^ n.prefix_len = 2 ^ 32 := by
          rw [← pow_add]; congr 1; omega
        omega
      have hmin : min (network 32 n + 1) (2 ^ 32 - 1) = network 32 n + 1 :=
        Nat.min_eq_left (by omega)
      rw [hmin]
  · intro h
    exact habsent (by omega)

/-- C7 witness. -/
theorem usable_range_boundary_witness :
    (usable_range ⟨167837953, 30⟩ =
      some (network 32 ⟨167837953, 30⟩ + 1, broadcast 32 ⟨167837953, 30⟩ - 1) ↔
        (30 : Nat) ≤ 30) ∧
    (((30 : Nat) = 31 ∨ (30 : Nat) = 32) → usable_range ⟨167837953, 30⟩ = none) ∧
    ("Usable range" : String) ∉ ipv6_summarize_attributes :=
  usable_range_boundary ⟨167837953, 30⟩ (by decide) (by decide)

/-- C8: once the step-1 validation has passed, every shift amount the
random_split arithmetic evaluates is strictly below the bit width (so never a
shift by the full width, in the zero-prefix branch included), and the
network-construction error branch is unreachable: the call returns a success
for every drawn value. -/
theorem random_split_shifts_in_bounds (w : Nat) (ip : Network) (s r : Nat)
    (h1 : ip.prefix_len < s) (h2 : s ≤ w) :
    (∀ a ∈ random_split_shift_amounts w ip s, a < w) ∧
    ∃ m, random_split_generate_address w ip s r = .ok m := by
  constructor
  · intro a hmem
    unfold random_split_shift_amounts at hmem
    by_cases hp : ip.prefix_len = 0 <;> simp [hp] at hmem <;> omega
  · simp only [random_split_generate_address, Network.new]
    rw [if_neg (by omega : ¬ s ≤ ip.prefix_len), if_neg (by omega : ¬ w < s)]
    by_cases hp : ip.prefix_len = 0
    · rw [if_pos hp, if_pos h2]
      exact ⟨_, rfl⟩
    · rw [if_neg hp, if_pos h2]
      exact ⟨_, rfl⟩

/-- C8 witness. -/
theorem random_split_shifts_in_bounds_witness :
    (∀ a ∈ random_split_shift_amounts 32 ⟨0, 16⟩ 24, a < 32) ∧
    ∃ m, random_split_generate_address 32 ⟨0, 16⟩ 24 0 = .ok m :=
  random_split_shifts_in_bounds 32 ⟨0, 16⟩ 24 0 (by decide) (by decide)

/-- C9: every network random_split returns has its address masked to the new
prefix length: the address AND the hostmask of the returned network (whose
prefix length is the requested s) is zero, regardless of whether the input
address was masked to its own prefix. -/
theorem random_split_result_masked {w : Nat} (ip : Network) (s r : Nat) (m : Network)
    (h : random_split_generate_address w ip s r = .ok m) :
    m.addr &&& hostmask w m = 0 := by
  simp only [random_split_generate_address, Network.new] at h
  by_cases hv1 : s ≤ ip.prefix_len
  · rw [if_pos hv1] at h
    exact absurd h (by simp)
  rw [if_neg hv1] at h
  by_cases hv2 : w < s
  · rw [if_pos hv2] at h
    exact absurd h (by simp)
  rw [if_neg hv2] at h
  have hmask0 : ∀ X : Nat, X &&& wnot w ((1 <<< (w - s)) - 1) &&& (2 ^ (w - s) - 1) = 0 := by
    intro X
    rw [Nat.one_shiftLeft, wnot_two_pow_sub_one (Nat.sub_le w s), Nat.and_assoc,
      Nat.and_pow_two_sub_one_eq_mod]
    have hdvd : 2 ^ (w - s) ∣ 2 ^ w - 2 ^ (w - s) := by
      refine Nat.dvd_sub' ⟨2 ^ s, ?_⟩ dvd_rfl
      rw [← pow_add]
      congr 1
      omega
    obtain ⟨c, hc⟩ := hdvd
    rw [hc, Nat.mul_mod_right, Nat.and_zero]
  by_cases hp : ip.prefix_len = 0
  · rw [if_pos hp, if_pos (show s ≤ w by omega)] at h
    obtain rfl := Except.ok.inj h
    rw [hostmask_eq]
    exact hmask0 r
  · rw [if_neg hp, if_pos (show s ≤ w by omega)] at h
    obtain rfl := Except.ok.inj h
    rw [hostmask_eq]
    exact hmask0 _

/-- C9 witness. -/
theorem random_split_result_masked_witness :
    Network.addr ⟨0, 24⟩ &&& hostmask 32 ⟨0, 24⟩ = 0 :=
  random_split_result_masked ⟨0, 16⟩ 24 5 ⟨0, 24⟩ rfl

/-- C3 counterexample: splitting 10.1.1.0/24 at the equal prefix length 24
succeeds with the single-element result instead of failing with the
InvalidSplit error. -/
theorem split_equal_prefix_len_succeeds :
    splitV4 ⟨167837952, 24⟩ 24 = .ok [⟨167837952, 24⟩] := rfl

/-- C3 (amended): random_split fails with SplitSmallerThanPrefixLen for every
requested length at most the current prefix length (both the generic traits
engine and the per-family generator), while split only fails for strictly
smaller requests — at equality it succeeds with the single-element split. -/
theorem split_lower_validation_boundary {σ : Type} (n : Network) (s : Nat)
    (rng : σ → Nat × σ) (st : σ) :
    (∀ w, s ≤ n.prefix_len →
      generate_random_split w n s rng st =
        (.error (.SplitSmallerThanPrefixLen s n.prefix_len), st)) ∧
    (∀ w r, s ≤ n.prefix_len →
      random_split_generate_address w n s r =
        .error (.SplitSmallerThanPrefixLen s n.prefix_len)) ∧
    (s < n.prefix_len →
      splitV4 n s = .error (.SplitSmallerThanPrefixLen s n.prefix_len)) ∧
    (s = n.prefix_len → s ≤ 32 → splitV4 n s = .ok [⟨network 32 n, s⟩]) := by
  refine ⟨?_, ?_, ?_, ?_⟩
  · intro w hle
    rw [generate_random_split, if_pos hle]
  · intro w r hle
    rw [random_split_generate_address, if_pos hle]
  · intro hlt
    have hsub : subnets 32 n s = .error .PrefixLen := by
      rw [subnets, if_neg (by omega)]
    rw [splitV4, hsub]
  · intro hse h32
    rw [splitV4, subnets_ok n s (by omega) h32]
    have h0 : s - n.prefix_len = 0 := by omega
    rw [h0]
    simp [show (2 : Nat) ^ 0 = 1 from rfl, show List.range 1 = [0] from rfl]

/-- C3 witness. -/
theorem split_lower_validation_boundary_witness :
    generate_random_split 32 ⟨0, 24⟩ 24 (fun k => (k, k + 1)) 0 =
      (.error (.SplitSmallerThanPrefixLen 24 24), 0) ∧
    splitV4 ⟨0, 24⟩ 16 = .error (.SplitSmallerThanPrefixLen 16 24) ∧
    splitV4 ⟨0, 24⟩ 24 = .ok [⟨network 32 ⟨0, 24⟩, 24⟩] :=
  ⟨(split_lower_validation_boundary ⟨0, 24⟩ 24 (fun k => (k, k + 1)) 0).1 32 (by decide),
   (split_lower_validation_boundary ⟨0, 24⟩ 16 (fun k => (k, k + 1)) 0).2.2.1 (by decide),
   (split_lower_validation_boundary ⟨0, 24⟩ 24 (fun k => (k, k + 1)) 0).2.2.2 rfl
     (by decide)⟩

/-- C4 counterexample: IPv4 split at a too-large prefix length fails, but with
the SplitSmallerThanPrefixLen error, not the SplitTooBig typed error. -/
theorem split_too_big_error_kind :
    splitV4 ⟨0, 24⟩ 33 = .error (.SplitSmallerThanPrefixLen 33 24) ∧
    splitV4 ⟨0, 24⟩ 33 ≠ .error (.SplitTooBig 32 33) := by
  refine ⟨rfl, ?_⟩
  rw [show splitV4 ⟨0, 24⟩ 33 = .error (.SplitSmallerThanPrefixLen 33 24) from rfl]
  simp

/-- C4 (amended): for a requested prefix length above the bit width,
random_split fails with the typed SplitTooBig error carrying the width limit
and the request (provided the request also exceeds the current prefix length,
which is checked first); the IPv4 split instead fails with
SplitSmallerThanPrefixLen, and the IPv6 split returns its success output
carrying the oversized-splitmask message rather than an error value. -/
theorem split_upper_validation_boundary {σ : Type} (n : Network) (s : Nat)
    (rng : σ → Nat × σ) (st : σ) :
    (∀ w, n.prefix_len < s → w < s →
      generate_random_split w n s rng st = (.error (.SplitTooBig w s), st)) ∧
    (∀ w r, n.prefix_len < s → w < s →
      random_split_generate_address w n s r = .error (.SplitTooBig w s)) ∧
    (32 < s → splitV4 n s = .error (.SplitSmallerThanPrefixLen s n.prefix_len)) ∧
    (128 < s → splitV6 n s = .oversizedSplitmask) := by
  refine ⟨?_, ?_, ?_, ?_⟩
  · intro w hgt hbig
    rw [generate_random_split, if_neg (by omega : ¬ s ≤ n.prefix_len), if_pos hbig]
  · intro w r hgt hbig
    rw [random_split_generate_address, if_neg (by omega : ¬ s ≤ n.prefix_len), if_pos hbig]
  · intro h33
    have hsub : subnets 32 n s = .error .PrefixLen := by
      rw [subnets, if_neg (by omega)]
    rw [splitV4, hsub]
  · intro h129
    have hsub : subnets 128 n s = .error .PrefixLen := by
      rw [subnets, if_neg (by omega)]
    rw [splitV6, hsub]

/-- C4 witness. -/
theorem split_upper_validation_boundary_witness :
    generate_random_split 32 ⟨0, 24⟩ 40 (fun k => (k, k + 1)) 0 =
      (.error (.SplitTooBig 32 40), 0) ∧
    splitV4 ⟨0, 24⟩ 40 = .error (.SplitSmallerThanPrefixLen 40 24) ∧
    splitV6 ⟨0, 24⟩ 200 = .oversizedSplitmask :=
  ⟨(split_upper_validation_boundary ⟨0, 24⟩ 40 (fun k => (k, k + 1)) 0).1 32
      (by decide) (by decide),
   (split_upper_validation_boundary ⟨0, 24⟩ 40 (fun k => (k, k + 1)) 0).2.2.1 (by decide),
   (split_upper_validation_boundary ⟨0, 24⟩ 200 (fun k => (k, k + 1)) 0).2.2.2 (by decide)⟩

/-- C10: whenever random_split fails, both validation checks have run and
returned before any random value is drawn, so the caller-supplied generator
state comes back unchanged. -/
theorem random_split_error_keeps_rng_state {σ : Type} (w : Nat) (ip : Network)
    (s : Nat) (rng : σ → Nat × σ) (st : σ) (e : Error)
    (h : (generate_random_split w ip s rng st).1 = .error e) :
    (generate_random_split w ip s rng st).2 = st := by
  simp only [generate_random_split] at h ⊢
  by_cases hv1 : s ≤ ip.prefix_len
  · rw [if_pos hv1]
  rw [if_neg hv1] at h ⊢
  by_cases hv2 : w < s
  · rw [if_pos hv2]
  rw [if_neg hv2] at h ⊢
  exfalso
  simp only [Network.new] at h
  by_cases hp : ip.prefix_len = 0
  · rw [if_pos hp, if_pos (show s ≤ w by omega)] at h
    exact Except.noConfusion h
  · rw [if_neg hp, if_pos (show s ≤ w by omega)] at h
    exact Except.noConfusion h

/-- C10 witness. -/
theorem random_split_error_keeps_rng_state_witness :
    (generate_random_split 32 ⟨0, 16⟩ 8 (fun k => (k, k + 1)) 0).2 = 0 :=
  random_split_error_keeps_rng_state 32 ⟨0, 16⟩ 8 (fun k => (k, k + 1)) 0
    (.SplitSmallerThanPrefixLen 8 16) rfl

end Iprs
